import Mathlib

/-
Verification development for the Merkle-tree disk store / memory cache of
bitcoin-sv (src/merkletreestore.h) and the GlobalConfig setters (config.cpp).

The repository ships only the header of CMerkleTreeStore / CMerkleTreeFactory;
the method bodies are not part of the sources given.  Where a method body is
missing, the corresponding Lean definition is modelled from the specification
(spec.md sections 4.B-4.E), and is marked as such in its doc comment.
The GlobalConfig setters are present in the sources and are translated
directly from the C++.

Block identifiers (uint256), Merkle trees (CMerkleTree) and serialized tree
records are modelled as natural numbers; the store treats all of them as
opaque values.  Machine integers are Nat/Int; the one place where uint64
wrap-around matters (GlobalConfig::SetMaxBlockSize) reduces the sum modulo
2^64 explicitly.
-/

namespace MerkleStore

/-- Retention window: data files containing one of the latest
MIN_BLOCKS_TO_KEEP Merkle trees are never pruned.  Modelled from the spec:
the constant is declared in validation.h, which is not among the given
sources; the spec and the header comment both give the default 288. -/
def MIN_BLOCKS_TO_KEEP : Int := 288

/-- Position of a serialized Merkle tree record on disk: data file suffix and
byte offset inside that file (MerkleTreeDiskPosition). -/
structure MerkleTreeDiskPosition where
  fileSuffix : Nat
  fileOffset : Nat
  deriving DecidableEq, Repr

/-- Per-file metadata (MerkleTreeFileInfo): total bytes written into the file
and the greatest block height of any tree stored in it. -/
structure MerkleTreeFileInfo where
  fileSize : Nat
  greatestHeight : Int
  deriving DecidableEq, Repr

/-- Lookup in an association list keyed by Nat (models unordered_map /
std::map find). -/
def alookup {β : Type} : List (Nat × β) → Nat → Option β
  | [], _ => none
  | (k, v) :: rest, key => if k = key then some v else alookup rest key

/-- Remove the entry with the given key (models map::erase; removes the first
occurrence, which is the only one when keys are duplicate-free). -/
def aerase {β : Type} : List (Nat × β) → Nat → List (Nat × β)
  | [], _ => []
  | (k, v) :: rest, key => if k = key then rest else (k, v) :: aerase rest key

/-- Number of entries carrying the given key. -/
def countKey {β : Type} (l : List (Nat × β)) (k : Nat) : Nat :=
  l.countP (fun p => decide (p.1 = k))

/-- In-memory state of CMerkleTreeStore.  `fileData` models the contents of
the on-disk data files, keyed by the owning block hash (each block's record
sits at its recorded position; spec invariant I1 makes the bytes at that
position decode to the block's tree, so the map by block hash is the faithful
abstraction of the files' payload). -/
structure StoreState where
  diskPositionMap : List (Nat × MerkleTreeDiskPosition)
  nextDiskPosition : MerkleTreeDiskPosition
  fileInfoMap : List (Nat × MerkleTreeFileInfo)
  diskUsage : Nat
  fileData : List (Nat × Nat)
  deriving DecidableEq, Repr

/-- Sum of fileSize over all live data files (the quantity the diskUsage
counter is meant to track). -/
def sumFileSizes : List (Nat × MerkleTreeFileInfo) → Nat
  | [] => 0
  | p :: rest => p.2.fileSize + sumFileSizes rest

/-- Result of PruneDataFilesNL: ok when afterwards
diskUsage + newDataSize ≤ maxDiskSpace, insufficient otherwise. -/
inductive PruneResult where
  | ok
  | insufficient
  deriving DecidableEq, Repr

/-- Modelled from the spec: victim selection of PruneDataFilesNL
(spec 4.C prune; the method body is not among the given sources).
Walks the file-info map in ascending suffix order (std::map iteration
order), stops as soon as enough space is freed, skips files whose
greatestHeight is above chainHeight - MIN_BLOCKS_TO_KEEP, and otherwise
selects the file as a victim.  Returns (remaining file infos, victim
suffixes, disk usage after removing the victims). -/
def pruneSelect (chainHeight : Int) (maxDiskSpace addBytes : Nat) :
    List (Nat × MerkleTreeFileInfo) → Nat →
    List (Nat × MerkleTreeFileInfo) × List Nat × Nat
  | [], du => ([], [], du)
  | (f, fi) :: rest, du =>
    if du + addBytes ≤ maxDiskSpace then ((f, fi) :: rest, [], du)
    else if chainHeight - MIN_BLOCKS_TO_KEEP < fi.greatestHeight then
      let r := pruneSelect chainHeight maxDiskSpace addBytes rest du
      ((f, fi) :: r.1, r.2.1, r.2.2)
    else
      let r := pruneSelect chainHeight maxDiskSpace addBytes rest (du - fi.fileSize)
      (r.1, f :: r.2.1, r.2.2)

/-- Smallest non-negative file suffix not used by any live file (used to
reset the next-write position when its file was pruned).  Correct on a
file-info map whose keys are ascending. -/
def smallestFreeSuffix (fim : List (Nat × MerkleTreeFileInfo)) : Nat :=
  fim.foldl (fun acc p => if p.1 = acc then acc + 1 else acc) 0

/-- Modelled from the spec: applying a prune's victim set to the store state
(spec 4.C prune, steps "for each victim ..."; corresponds to the
RemoveOldDataNL calls of the missing method body).  Removes every disk
position living in a victim file (and the corresponding file records),
installs the remaining file infos and the reduced disk usage, and resets the
next-write position if its file was removed. -/
def removeOldDataNL (victims : List Nat)
    (newFileInfoMap : List (Nat × MerkleTreeFileInfo)) (newDiskUsage : Nat)
    (s : StoreState) : StoreState :=
  let removedHashes :=
    (s.diskPositionMap.filter (fun p => decide (p.2.fileSuffix ∈ victims))).map Prod.fst
  { diskPositionMap := s.diskPositionMap.filter (fun p => decide (p.2.fileSuffix ∉ victims))
    nextDiskPosition :=
      if s.nextDiskPosition.fileSuffix ∈ victims then ⟨smallestFreeSuffix newFileInfoMap, 0⟩
      else s.nextDiskPosition
    fileInfoMap := newFileInfoMap
    diskUsage := newDiskUsage
    fileData := s.fileData.filter (fun p => decide (p.1 ∉ removedHashes)) }

/-- Modelled from the spec: CMerkleTreeStore::PruneDataFilesNL (spec 4.C
prune; the method body is not among the given sources).  Fast path when the
new data still fits; otherwise select victims oldest-first under the height
guard and commit the removals only when afterwards the new data fits, else
commit nothing and report insufficient space. -/
def pruneDataFilesNL (maxDiskSpace addBytes : Nat) (chainHeight : Int)
    (s : StoreState) : PruneResult × StoreState :=
  if s.diskUsage + addBytes ≤ maxDiskSpace then (.ok, s)
  else
    let r := pruneSelect chainHeight maxDiskSpace addBytes s.fileInfoMap s.diskUsage
    if r.2.2 + addBytes ≤ maxDiskSpace then (.ok, removeOldDataNL r.2.1 r.1 r.2.2 s)
    else (.insufficient, s)

/-- Ordered insert-or-update of a file-info entry (std::map semantics): an
existing file grows by the written bytes and raises its greatest height,
a new file starts with exactly the written bytes. -/
def updateFileInfoMap : List (Nat × MerkleTreeFileInfo) → Nat → Int → Nat →
    List (Nat × MerkleTreeFileInfo)
  | [], f, h, n => [(f, ⟨n, h⟩)]
  | (k, fi) :: rest, f, h, n =>
    if f = k then (k, ⟨fi.fileSize + n, max fi.greatestHeight h⟩) :: rest
    else if f < k then (f, ⟨n, h⟩) :: (k, fi) :: rest
    else (k, fi) :: updateFileInfoMap rest f h n

/-- Modelled from the spec: CMerkleTreeStore::AddNewDataNL (spec 4.C store,
step 5; the method body is not among the given sources).  Records the new
disk position, advances the next-write position past the written record,
updates the file info of the written file and the disk-usage counter, and
stores the record itself. -/
def addNewDataNL (blockHash : Nat) (blockHeight : Int) (tree : Nat)
    (writeAt : MerkleTreeDiskPosition) (writtenBytes : Nat) (s : StoreState) : StoreState :=
  { diskPositionMap := (blockHash, writeAt) :: s.diskPositionMap
    nextDiskPosition := ⟨writeAt.fileSuffix, writeAt.fileOffset + writtenBytes⟩
    fileInfoMap := updateFileInfoMap s.fileInfoMap writeAt.fileSuffix blockHeight writtenBytes
    diskUsage := s.diskUsage + writtenBytes
    fileData := (blockHash, tree) :: s.fileData }

/-- Outcome of a store call, following spec 4.C.  The C++ method collapses
this to a bool (header comment: "Returns false if Merkle Tree with given
blockHash was already written or in case of errors"); `storeResultToBool`
is that collapse. -/
inductive StoreResult where
  | ok
  | alreadyPresent
  | noSpace
  | ioError
  deriving DecidableEq, Repr

/-- The boolean actually returned by CMerkleTreeStore::StoreMerkleTree, per
the header's documented convention: true only on a successful new write. -/
def storeResultToBool : StoreResult → Bool
  | .ok => true
  | _ => false

/-- Modelled from the spec: CMerkleTreeStore::StoreMerkleTree (spec 4.C
store, steps 1-6; the method body is not among the given sources).  The two
booleans inject the possible I/O failures: `appendOk` is the file append
(step 4), `persistOk` the index batch commit (step 6).  On a failed commit
the in-memory mutations of the store step are rolled back, leaving the state
produced by the prune of step 2. -/
def storeMerkleTree (maxDiskSpace preferredFileSize : Nat)
    (appendOk persistOk : Bool) (blockHash : Nat) (blockHeight : Int)
    (tree treeSize : Nat) (chainHeight : Int) (s : StoreState) :
    StoreResult × StoreState :=
  match alookup s.diskPositionMap blockHash with
  | some _ => (.alreadyPresent, s)
  | none =>
    match pruneDataFilesNL maxDiskSpace treeSize chainHeight s with
    | (.insufficient, _) => (.noSpace, s)
    | (.ok, s1) =>
      if appendOk = false then (.ioError, s1)
      else if persistOk = false then (.ioError, s1)
      else
        (.ok, addNewDataNL blockHash blockHeight tree
          (if 0 < s1.nextDiskPosition.fileOffset ∧
              preferredFileSize < s1.nextDiskPosition.fileOffset + treeSize then
            ⟨s1.nextDiskPosition.fileSuffix + 1, 0⟩
          else s1.nextDiskPosition) treeSize s1)

/-- Modelled from the spec: CMerkleTreeStore::GetMerkleTree (spec 4.C get;
the method body is not among the given sources).  Looks up the disk
position; on a hit, reads the record from the data file. -/
def storeGetMerkleTree (s : StoreState) (blockHash : Nat) : Option Nat :=
  match alookup s.diskPositionMap blockHash with
  | none => none
  | some _ => alookup s.fileData blockHash

/-- One cached Merkle tree together with the byte size attributed to it
(the tree's reported serialized size; spec 4.D). -/
structure CacheEntry where
  tree : Nat
  sizeBytes : Nat
  deriving DecidableEq, Repr

/-- In-memory state of the CMerkleTreeFactory cache: the map of cached
trees, the FIFO queue of their block hashes (front = oldest), and the
aggregate cached byte size. -/
structure CacheState where
  merkleTreeMap : List (Nat × CacheEntry)
  merkleTreeQueue : List Nat
  cacheSizeBytes : Nat
  deriving DecidableEq, Repr

/-- Aggregate serialized size over the cached entries. -/
def sumSizes : List (Nat × CacheEntry) → Nat
  | [] => 0
  | p :: rest => p.2.sizeBytes + sumSizes rest

/-- Cache lookup: a pure read of the map (spec 4.D lookup: non-mutating,
does not change the eviction order). -/
def cacheLookup (c : CacheState) (blockHash : Nat) : Option CacheEntry :=
  alookup c.merkleTreeMap blockHash

/-- Modelled from the spec: the eviction loop of CMerkleTreeFactory::Insert
(spec 4.D insert; the method body is not among the given sources).  While
the new entry would push the aggregate size over the bound and the queue is
non-empty, pop the oldest block hash, drop its map entry and subtract its
size.  Arguments and result: (queue, map, aggregate bytes). -/
def evictLoop (cacheMax entryBytes : Nat) :
    List Nat → List (Nat × CacheEntry) → Nat →
    List Nat × List (Nat × CacheEntry) × Nat
  | [], m, b => ([], m, b)
  | oldest :: rest, m, b =>
    if b + entryBytes ≤ cacheMax then (oldest :: rest, m, b)
    else
      match alookup m oldest with
      | some e => evictLoop cacheMax entryBytes rest (aerase m oldest) (b - e.sizeBytes)
      | none => evictLoop cacheMax entryBytes rest m b

/-- Modelled from the spec: CMerkleTreeFactory::Insert (spec 4.D insert; the
method body is not among the given sources).  A hash already present is a
no-op; otherwise oldest entries are evicted until the new entry fits (or the
cache is empty) and the new entry is appended to the FIFO queue and map. -/
def cacheInsert (cacheMax : Nat) (blockHash : Nat) (entry : CacheEntry)
    (c : CacheState) : CacheState :=
  if (alookup c.merkleTreeMap blockHash).isSome then c
  else
    let r := evictLoop cacheMax entry.sizeBytes c.merkleTreeQueue c.merkleTreeMap c.cacheSizeBytes
    { merkleTreeMap := (blockHash, entry) :: r.2.1
      merkleTreeQueue := r.1 ++ [blockHash]
      cacheSizeBytes := r.2.2 + entry.sizeBytes }

/-- Modelled from the spec: CMerkleTreeFactory::GetMerkleTree (spec 4.E
obtain, steps 1-6; the method body is not among the given sources).
`blockDb` is the external block database (block hash to raw block bytes),
`calcTree` the external Merkle computation, `serSize` the serialized size of
a tree.  On a cache miss the disk store is consulted; on a disk miss the
block is fetched and the tree computed, stored best-effort (the store result
is ignored) and cached.  Returns the tree (if any) and the updated cache and
store states. -/
def factoryGetMerkleTree (maxDiskSpace preferredFileSize cacheMax : Nat)
    (appendOk persistOk : Bool) (blockDb : Nat → Option Nat)
    (calcTree serSize : Nat → Nat) (blockHash : Nat)
    (blockHeight chainHeight : Int) (c : CacheState) (s : StoreState) :
    Option Nat × CacheState × StoreState :=
  match cacheLookup c blockHash with
  | some e => (some e.tree, c, s)
  | none =>
    match storeGetMerkleTree s blockHash with
    | some t => (some t, cacheInsert cacheMax blockHash ⟨t, serSize t⟩ c, s)
    | none =>
      match blockDb blockHash with
      | none => (none, c, s)
      | some blockBytes =>
        let t := calcTree blockBytes
        let s1 := (storeMerkleTree maxDiskSpace preferredFileSize appendOk persistOk
          blockHash blockHeight t (serSize t) chainHeight s).2
        (some t, cacheInsert cacheMax blockHash ⟨t, serSize t⟩ c, s1)

/-- Little-endian byte encoding of a natural number into a fixed number of
bytes (spec 6, index keyspace value encodings). -/
def encLE : Nat → Nat → List Nat
  | 0, _ => []
  | w + 1, n => n % 256 :: encLE w (n / 256)

/-- Little-endian byte decoding. -/
def decLE : List Nat → Nat
  | [] => 0
  | b :: rest => b + 256 * decLE rest

/-- Big-endian byte encoding (used for the file-suffix component of the
file-info keys, so that lexicographic key order is numeric order). -/
def encBE (w n : Nat) : List Nat := (encLE w n).reverse

/-- Big-endian byte decoding. -/
def decBE (l : List Nat) : Nat := decLE l.reverse

/-- Two's-complement encoding of a signed 32-bit height into 4 LE bytes. -/
def encI32 (h : Int) : List Nat := encLE 4 (h % 4294967296).toNat

/-- Two's-complement decoding of 4 LE bytes into a signed 32-bit height. -/
def decI32 (l : List Nat) : Int :=
  let n := decLE l
  if n < 2147483648 then (n : Int) else (n : Int) - 4294967296

/-- One reconstructed record of the persisted Merkle-tree index. -/
inductive IndexItem where
  | posItem (blockHash : Nat) (pos : MerkleTreeDiskPosition)
  | fileItem (suffix : Nat) (info : MerkleTreeFileInfo)
  | npItem (pos : MerkleTreeDiskPosition)
  deriving DecidableEq, Repr

/-- Modelled from the spec: the index entry written for one disk position
(spec 6: byte 0x70 then the 32-byte block hash as key; u32 suffix LE then
u64 offset LE as value). -/
def serializePosEntry (p : Nat × MerkleTreeDiskPosition) : List Nat × List Nat :=
  (0x70 :: encLE 32 p.1, encLE 4 p.2.fileSuffix ++ encLE 8 p.2.fileOffset)

/-- Modelled from the spec: the index entry written for one file info
(spec 6: byte 0x66 then the u32 suffix BE as key; u64 fileSize LE then
i32 greatestHeight LE as value). -/
def serializeFileEntry (p : Nat × MerkleTreeFileInfo) : List Nat × List Nat :=
  (0x66 :: encBE 4 p.1, encLE 8 p.2.fileSize ++ encI32 p.2.greatestHeight)

/-- Modelled from the spec: the index entry written for the next-write
position (spec 6: byte 0x6E as key; u32 suffix LE then u64 offset LE). -/
def serializeNpEntry (np : MerkleTreeDiskPosition) : List Nat × List Nat :=
  ([0x6E], encLE 4 np.fileSuffix ++ encLE 8 np.fileOffset)

/-- Modelled from the spec: the full index contents mirroring the in-memory
state (PM, FIM, NP) after a committed batch (spec 4.B). -/
def serializeIndex (s : StoreState) : List (List Nat × List Nat) :=
  s.fileInfoMap.map serializeFileEntry
    ++ [serializeNpEntry s.nextDiskPosition]
    ++ s.diskPositionMap.map serializePosEntry

/-- Modelled from the spec: parsing one key-value entry of the index,
dispatching on the single-byte key family and checking the fixed widths
(spec 6); a malformed entry means a corrupt index. -/
def parseIndexEntry (e : List Nat × List Nat) : Option IndexItem :=
  match e.1 with
  | 0x66 :: keyRest =>
    if keyRest.length = 4 ∧ e.2.length = 12 then
      some (.fileItem (decBE keyRest) ⟨decLE (e.2.take 8), decI32 (e.2.drop 8)⟩)
    else none
  | 0x6E :: keyRest =>
    if keyRest.length = 0 ∧ e.2.length = 12 then
      some (.npItem ⟨decLE (e.2.take 4), decLE (e.2.drop 4)⟩)
    else none
  | 0x70 :: keyRest =>
    if keyRest.length = 32 ∧ e.2.length = 12 then
      some (.posItem (decLE keyRest) ⟨decLE (e.2.take 4), decLE (e.2.drop 4)⟩)
    else none
  | _ => none

/-- Parse every index entry; any malformed entry poisons the whole load. -/
def parseAll : List (List Nat × List Nat) → Option (List IndexItem)
  | [] => some []
  | e :: rest =>
    match parseIndexEntry e, parseAll rest with
    | some i, some is => some (i :: is)
    | _, _ => none

/-- Fold the parsed index items into the reconstructed position map, file
info map and next-write position, in scan order. -/
def buildIndexState : List IndexItem →
    List (Nat × MerkleTreeDiskPosition) × List (Nat × MerkleTreeFileInfo) × MerkleTreeDiskPosition →
    List (Nat × MerkleTreeDiskPosition) × List (Nat × MerkleTreeFileInfo) × MerkleTreeDiskPosition
  | [], acc => acc
  | .posItem b p :: rest, acc => buildIndexState rest (acc.1 ++ [(b, p)], acc.2.1, acc.2.2)
  | .fileItem f fi :: rest, acc => buildIndexState rest (acc.1, acc.2.1 ++ [(f, fi)], acc.2.2)
  | .npItem p :: rest, acc => buildIndexState rest (acc.1, acc.2.1, p)

/-- One more than the greatest live file suffix (0 on an empty map); the
next-write position of a fresh file. -/
def maxSuffixPlusOne (fim : List (Nat × MerkleTreeFileInfo)) : Nat :=
  fim.foldl (fun a p => Nat.max a (p.1 + 1)) 0

/-- Modelled from the spec: CMerkleTreeStore::LoadMerkleTreeIndexDB
(spec 4.C loadIndex; the method body is not among the given sources).
Reconstructs PM, FIM and NP from the index entries, recomputes the disk
usage as the sum of the file sizes, and validates that every position's file
is live and that the next-write position is a live file or the next fresh
one; a malformed entry or failed validation yields none (state reset). -/
def loadMerkleTreeIndexDB (entries : List (List Nat × List Nat)) :
    Option (List (Nat × MerkleTreeDiskPosition) × List (Nat × MerkleTreeFileInfo) ×
      MerkleTreeDiskPosition × Nat) :=
  match parseAll entries with
  | none => none
  | some items =>
    let r := buildIndexState items ([], [], ⟨0, 0⟩)
    if (∀ p ∈ r.1, ∃ q ∈ r.2.1, q.1 = p.2.fileSuffix) ∧
        ((∃ q ∈ r.2.1, q.1 = r.2.2.fileSuffix) ∨ r.2.2.fileSuffix = maxSuffixPlusOne r.2.1) then
      some (r.1, r.2.1, r.2.2, sumFileSizes r.2.1)
    else none

end MerkleStore

namespace BitcoinConfig

/-- The members of GlobalConfig that the two setters under study touch
(config.cpp): nMaxBlockSize is a uint64, nBlockPriorityPercentage a uint8. -/
structure GlobalConfig where
  nMaxBlockSize : Nat
  nBlockPriorityPercentage : Nat
  deriving DecidableEq, Repr

/-- uint64 modulus: the addition in SetMaxBlockSize is carried out in
uint64 arithmetic. -/
def U64MOD : Nat := 18446744073709551616

/-- GlobalConfig::SetMaxBlockSize, translated from config.cpp.  The numeric
constants LEGACY_MAX_BLOCK_SIZE, MAX_BLOCKFILE_SIZE and
BLOCKFILE_BLOCK_HEADER_SIZE are defined in headers outside the given
sources, so they are parameters here.  The C++ computes
maxBlockSize + BLOCKFILE_BLOCK_HEADER_SIZE in uint64, hence the explicit
reduction modulo 2^64. -/
def setMaxBlockSize (legacyMaxBlockSize maxBlockfileSize blockfileBlockHeaderSize : Nat)
    (maxBlockSize : Nat) (cfg : GlobalConfig) : Bool × GlobalConfig :=
  if maxBlockSize ≤ legacyMaxBlockSize then (false, cfg)
  else if maxBlockfileSize ≤ (maxBlockSize + blockfileBlockHeaderSize) % U64MOD then (false, cfg)
  else (true, { cfg with nMaxBlockSize := maxBlockSize })

/-- GlobalConfig::SetBlockPriorityPercentage, translated from config.cpp.
The argument is an int64; storing into the uint8 member narrows modulo 256
(which is the identity on the accepted range 0..100). -/
def setBlockPriorityPercentage (blockPriorityPercentage : Int) (cfg : GlobalConfig) :
    Bool × GlobalConfig :=
  if blockPriorityPercentage < 0 ∨ 100 < blockPriorityPercentage then (false, cfg)
  else (true, { cfg with nBlockPriorityPercentage := (blockPriorityPercentage % 256).toNat })

end BitcoinConfig

namespace MerkleStore

/-- A store state exercising the prune paths: two live data files of 8 bytes
each, both holding only old trees (greatest heights 1 and 2). -/
def sEx : StoreState :=
  { diskPositionMap := [(1, ⟨0, 0⟩), (2, ⟨1, 0⟩)]
    nextDiskPosition := ⟨1, 8⟩
    fileInfoMap := [(0, ⟨8, 1⟩), (1, ⟨8, 2⟩)]
    diskUsage := 16
    fileData := [(1, 11), (2, 22)] }

/-- Well-formedness of the cache state: the FIFO queue holds each cached
hash exactly once, the map's keys are exactly the queued hashes, and the
byte counter equals the aggregate entry size. -/
def CacheWF (c : CacheState) : Prop :=
  c.merkleTreeQueue.Nodup ∧
  c.merkleTreeQueue.Perm (c.merkleTreeMap.map Prod.fst) ∧
  c.cacheSizeBytes = sumSizes c.merkleTreeMap

/-- The exceptional cache state: a single resident entry bigger than the
cache bound. -/
def CacheOversized (cacheMax : Nat) (c : CacheState) : Prop :=
  ∃ b e, c.merkleTreeQueue = [b] ∧ c.merkleTreeMap = [(b, e)] ∧
    c.cacheSizeBytes = e.sizeBytes ∧ cacheMax < e.sizeBytes

/-- Cache size invariant: within the bound, or the sole-oversized-resident
exception. -/
def CacheInv (cacheMax : Nat) (c : CacheState) : Prop :=
  c.cacheSizeBytes ≤ cacheMax ∨ CacheOversized cacheMax c

/-- A one-entry cache used as concrete input by the cache theorems. -/
def cEx : CacheState :=
  { merkleTreeMap := [(3, ⟨9, 6⟩)]
    merkleTreeQueue := [3]
    cacheSizeBytes := 6 }

/-- A store state with one data file holding two trees, used as concrete
input by the index round-trip theorem. -/
def sIdx : StoreState :=
  { diskPositionMap := [(5, ⟨0, 0⟩), (6, ⟨0, 12⟩)]
    nextDiskPosition := ⟨0, 24⟩
    fileInfoMap := [(0, ⟨24, 7⟩)]
    diskUsage := 24
    fileData := [(5, 42), (6, 43)] }

theorem alookup_eq_none {β : Type} :
    ∀ (l : List (Nat × β)) (k : Nat), alookup l k = none ↔ k ∉ l.map Prod.fst
  | [], k => by simp [alookup]
  | (a, b) :: rest, k => by
    by_cases h : a = k
    · subst h; simp [alookup]
    · simp [alookup, h, Ne.symm h, alookup_eq_none rest k]

theorem countKey_eq_zero {β : Type} (l : List (Nat × β)) (k : Nat) :
    countKey l k = 0 ↔ k ∉ l.map Prod.fst := by
  simp only [countKey, List.countP_eq_zero, List.mem_map]
  constructor
  · rintro h ⟨p, hp, rfl⟩
    simpa using h p hp
  · intro h p hp
    simp only [decide_eq_true_eq]
    exact fun he => h ⟨p, hp, he⟩

theorem countKey_cons {β : Type} (a : Nat) (b : β) (l : List (Nat × β)) (k : Nat) :
    countKey ((a, b) :: l) k = countKey l k + (if a = k then 1 else 0) := by
  simp [countKey, List.countP_cons]

theorem countKey_filter_zero {β : Type} (l : List (Nat × β)) (q : Nat × β → Bool) (k : Nat)
    (h : countKey l k = 0) : countKey (l.filter q) k = 0 := by
  rw [countKey_eq_zero] at h ⊢
  intro hk
  apply h
  obtain ⟨p, hp, rfl⟩ := List.mem_map.mp hk
  exact List.mem_map.mpr ⟨p, (List.mem_filter.mp hp).1, rfl⟩

theorem sumFileSizes_updateFileInfoMap :
    ∀ (l : List (Nat × MerkleTreeFileInfo)) (f : Nat) (h : Int) (n : Nat),
      sumFileSizes (updateFileInfoMap l f h n) = sumFileSizes l + n
  | [], f, h, n => by simp [updateFileInfoMap, sumFileSizes]
  | (k, fi) :: rest, f, h, n => by
    simp only [updateFileInfoMap]
    split_ifs with h1 h2 <;>
      simp [sumFileSizes, sumFileSizes_updateFileInfoMap rest f h n] <;> omega

theorem pruneSelect_sum (ch : Int) (maxd add : Nat) :
    ∀ (files : List (Nat × MerkleTreeFileInfo)) (du c : Nat),
      sumFileSizes files + c = du →
      sumFileSizes (pruneSelect ch maxd add files du).1 + c =
        (pruneSelect ch maxd add files du).2.2
  | [], du, c, h => by simpa [pruneSelect, sumFileSizes] using h
  | (f, fi) :: rest, du, c, h => by
    simp only [sumFileSizes] at h
    simp only [pruneSelect]
    split_ifs with h1 h2
    · simpa [sumFileSizes] using h
    · have ih := pruneSelect_sum ch maxd add rest du (c + fi.fileSize) (by omega)
      simp only [sumFileSizes]
      omega
    · have ih := pruneSelect_sum ch maxd add rest (du - fi.fileSize) c (by omega)
      simpa [sumFileSizes] using ih

/-- Prune reports ok only when afterwards the new data fits the budget, and
it keeps the disk-usage counter equal to the sum of the live file sizes. -/
theorem pruneDataFilesNL_ok (maxd add : Nat) (ch : Int) (s : StoreState)
    (hdu : sumFileSizes s.fileInfoMap = s.diskUsage)
    (hok : (pruneDataFilesNL maxd add ch s).1 = .ok) :
    (pruneDataFilesNL maxd add ch s).2.diskUsage + add ≤ maxd ∧
    sumFileSizes (pruneDataFilesNL maxd add ch s).2.fileInfoMap =
      (pruneDataFilesNL maxd add ch s).2.diskUsage := by
  by_cases h1 : s.diskUsage + add ≤ maxd
  · have hred : pruneDataFilesNL maxd add ch s = (.ok, s) := by
      simp [pruneDataFilesNL, h1]
    rw [hred]
    exact ⟨h1, hdu⟩
  · by_cases h2 : (pruneSelect ch maxd add s.fileInfoMap s.diskUsage).2.2 + add ≤ maxd
    · have hs := pruneSelect_sum ch maxd add s.fileInfoMap s.diskUsage 0 (by omega)
      have hred : pruneDataFilesNL maxd add ch s =
          (.ok, removeOldDataNL (pruneSelect ch maxd add s.fileInfoMap s.diskUsage).2.1
            (pruneSelect ch maxd add s.fileInfoMap s.diskUsage).1
            (pruneSelect ch maxd add s.fileInfoMap s.diskUsage).2.2 s) := by
        simp [pruneDataFilesNL, h1, h2]
      rw [hred]
      exact ⟨h2, by simpa [removeOldDataNL] using hs⟩
    · simp [pruneDataFilesNL, h1, h2] at hok

/-- Claim C1: for every committed state of the disk store the disk usage
counter (the sum of fileSize over all live files) is at most maxDiskSpace;
in particular, after every successful StoreMerkleTree call the new state
satisfies diskUsage ≤ maxDiskSpace, and the counter still equals the sum of
the live file sizes. -/
theorem storeMerkleTree_diskBound (maxd pref : Nat) (aOk pOk : Bool) (bid : Nat)
    (bh : Int) (t n : Nat) (ch : Int) (s : StoreState)
    (hdu : sumFileSizes s.fileInfoMap = s.diskUsage)
    (hok : (storeMerkleTree maxd pref aOk pOk bid bh t n ch s).1 = .ok) :
    (storeMerkleTree maxd pref aOk pOk bid bh t n ch s).2.diskUsage ≤ maxd ∧
    sumFileSizes (storeMerkleTree maxd pref aOk pOk bid bh t n ch s).2.fileInfoMap =
      (storeMerkleTree maxd pref aOk pOk bid bh t n ch s).2.diskUsage := by
  cases hl : alookup s.diskPositionMap bid with
  | some v => simp [storeMerkleTree, hl] at hok
  | none =>
    rcases hpr : pruneDataFilesNL maxd n ch s with ⟨r, s1⟩
    cases r with
    | insufficient => simp [storeMerkleTree, hl, hpr] at hok
    | ok =>
      cases aOk with
      | false => simp [storeMerkleTree, hl, hpr] at hok
      | true =>
        cases pOk with
        | false => simp [storeMerkleTree, hl, hpr] at hok
        | true =>
          have hp := pruneDataFilesNL_ok maxd n ch s hdu (by rw [hpr])
          rw [hpr] at hp
          simp only [storeMerkleTree, hl, hpr]
          constructor
          · simpa [addNewDataNL] using hp.1
          · simp [addNewDataNL, sumFileSizes_updateFileInfoMap, hp.2]

/-- Claim C1 witness: a concrete successful store into an empty store stays
within the 100-byte budget. -/
theorem storeMerkleTree_diskBound_witness :
    (storeMerkleTree 100 32 true true 5 7 42 10 9 ⟨[], ⟨0, 0⟩, [], 0, []⟩).2.diskUsage ≤ 100 :=
  (storeMerkleTree_diskBound 100 32 true true 5 7 42 10 9 ⟨[], ⟨0, 0⟩, [], 0, []⟩
    (by decide) (by decide)).1

/-- Victim selection visits the file-info map front to back (ascending file
suffix) and stops at some index k: everything it removed is an unguarded
file among the first k, everything from index k on survives untouched. -/
theorem pruneSelect_decomp (ch : Int) (maxd add : Nat) :
    ∀ (files : List (Nat × MerkleTreeFileInfo)) (du : Nat),
      ∃ k, (pruneSelect ch maxd add files du).1 =
          (files.take k).filter
            (fun p => decide (ch - MIN_BLOCKS_TO_KEEP < p.2.greatestHeight)) ++ files.drop k ∧
        (pruneSelect ch maxd add files du).2.1 =
          ((files.take k).filter
            (fun p => decide (p.2.greatestHeight ≤ ch - MIN_BLOCKS_TO_KEEP))).map Prod.fst
  | [], du => ⟨0, by simp [pruneSelect]⟩
  | (f, fi) :: rest, du => by
    by_cases h1 : du + add ≤ maxd
    · exact ⟨0, by simp [pruneSelect, h1]⟩
    · by_cases h2 : ch - MIN_BLOCKS_TO_KEEP < fi.greatestHeight
      · obtain ⟨k, hk1, hk2⟩ := pruneSelect_decomp ch maxd add rest du
        refine ⟨k + 1, ?_, ?_⟩
        · simp [pruneSelect, h1, h2, hk1]
        · simp [pruneSelect, h1, h2, hk2, not_le.mpr h2]
      · obtain ⟨k, hk1, hk2⟩ := pruneSelect_decomp ch maxd add rest (du - fi.fileSize)
        refine ⟨k + 1, ?_, ?_⟩
        · simp [pruneSelect, h1, h2, hk1]
        · simp [pruneSelect, h1, h2, hk2, not_lt.mp h2]

theorem take_filter_drop_sublist {α : Type} (l : List α) (p : α → Bool) (k : Nat) :
    ((l.take k).filter p ++ l.drop k).Sublist l := by
  have h := List.Sublist.append (List.filter_sublist (l := l.take k) (p := p))
    (List.Sublist.refl (l.drop k))
  simpa [List.take_append_drop] using h

/-- Claim C2 (amended): after prune, victims are the unguarded files
(greatestHeight ≤ chainHeight − MIN_BLOCKS_TO_KEEP) among the first k files
in ascending-suffix order, for the k at which prune stopped because enough
space was freed; files from index k on survive even if unguarded.  On the
insufficient outcome nothing is changed. -/
theorem pruneDataFilesNL_heightGuard (maxd add : Nat) (ch : Int) (s : StoreState)
    (hsorted : List.Pairwise (· < ·) (s.fileInfoMap.map Prod.fst)) :
    ((pruneDataFilesNL maxd add ch s).1 = .insufficient →
      (pruneDataFilesNL maxd add ch s).2 = s) ∧
    ((pruneDataFilesNL maxd add ch s).1 = .ok →
      (pruneDataFilesNL maxd add ch s).2.diskUsage + add ≤ maxd ∧
      List.Pairwise (· < ·) ((pruneDataFilesNL maxd add ch s).2.fileInfoMap.map Prod.fst) ∧
      ∃ k, (pruneDataFilesNL maxd add ch s).2.fileInfoMap =
        (s.fileInfoMap.take k).filter
          (fun p => decide (ch - MIN_BLOCKS_TO_KEEP < p.2.greatestHeight))
          ++ s.fileInfoMap.drop k) := by
  by_cases h1 : s.diskUsage + add ≤ maxd
  · have hred : pruneDataFilesNL maxd add ch s = (.ok, s) := by
      simp [pruneDataFilesNL, h1]
    rw [hred]
    exact ⟨fun hcontra => by simp at hcontra, fun _ => ⟨h1, hsorted, 0, by simp⟩⟩
  · by_cases h2 : (pruneSelect ch maxd add s.fileInfoMap s.diskUsage).2.2 + add ≤ maxd
    · have hred : pruneDataFilesNL maxd add ch s =
          (.ok, removeOldDataNL (pruneSelect ch maxd add s.fileInfoMap s.diskUsage).2.1
            (pruneSelect ch maxd add s.fileInfoMap s.diskUsage).1
            (pruneSelect ch maxd add s.fileInfoMap s.diskUsage).2.2 s) := by
        simp [pruneDataFilesNL, h1, h2]
      rw [hred]
      obtain ⟨k, hk1, _⟩ := pruneSelect_decomp ch maxd add s.fileInfoMap s.diskUsage
      refine ⟨fun hcontra => by simp at hcontra, fun _ => ⟨?_, ?_, k, ?_⟩⟩
      · simpa [removeOldDataNL] using h2
      · have hfim : (removeOldDataNL (pruneSelect ch maxd add s.fileInfoMap s.diskUsage).2.1
            (pruneSelect ch maxd add s.fileInfoMap s.diskUsage).1
            (pruneSelect ch maxd add s.fileInfoMap s.diskUsage).2.2 s).fileInfoMap =
            (pruneSelect ch maxd add s.fileInfoMap s.diskUsage).1 := rfl
        rw [hfim, hk1]
        exact List.Pairwise.sublist
          ((take_filter_drop_sublist s.fileInfoMap _ k).map Prod.fst) hsorted
      · simpa [removeOldDataNL] using hk1
    · have hred : pruneDataFilesNL maxd add ch s = (.insufficient, s) := by
        simp [pruneDataFilesNL, h1, h2]
      rw [hred]
      exact ⟨fun _ => rfl, fun hcontra => by simp at hcontra⟩

/-- Claim C2 counterexample: with budget 20, incoming size 5 and chain
height 1000, prune on sEx removes file 0 and then stops because enough space
is freed.  File 1 survives although its greatestHeight 2 is NOT above
chainHeight − MIN_BLOCKS_TO_KEEP = 712 and removing it would not have
violated the guard: the claim's asserted disjunction (guarded, or prune
could free no more without violating the guard) is false for file 1. -/
theorem pruneDataFilesNL_heightGuard_cex :
    pruneDataFilesNL 20 5 1000 sEx =
      (.ok, { diskPositionMap := [(2, ⟨1, 0⟩)]
              nextDiskPosition := ⟨1, 8⟩
              fileInfoMap := [(1, ⟨8, 2⟩)]
              diskUsage := 8
              fileData := [(2, 22)] }) ∧
    ((2 : Int) ≤ 1000 - 288) := by
  constructor
  · decide
  · decide

/-- Claim C2 witness: the amended prune theorem applied at the concrete
counterexample state. -/
theorem pruneDataFilesNL_heightGuard_witness :
    (pruneDataFilesNL 20 5 1000 sEx).2.diskUsage + 5 ≤ 20 :=
  ((pruneDataFilesNL_heightGuard 20 5 1000 sEx (by decide)).2 (by decide)).1

/-- Prune never introduces map entries: a block hash absent from the
position map (or a record absent from the data files) stays absent. -/
theorem pruneDataFilesNL_countKey (maxd add : Nat) (ch : Int) (s : StoreState) (k : Nat)
    (hpm : countKey s.diskPositionMap k = 0) (hfd : countKey s.fileData k = 0) :
    countKey (pruneDataFilesNL maxd add ch s).2.diskPositionMap k = 0 ∧
    countKey (pruneDataFilesNL maxd add ch s).2.fileData k = 0 := by
  by_cases h1 : s.diskUsage + add ≤ maxd
  · have hred : pruneDataFilesNL maxd add ch s = (.ok, s) := by
      simp [pruneDataFilesNL, h1]
    rw [hred]
    exact ⟨hpm, hfd⟩
  · by_cases h2 : (pruneSelect ch maxd add s.fileInfoMap s.diskUsage).2.2 + add ≤ maxd
    · have hred : pruneDataFilesNL maxd add ch s =
          (.ok, removeOldDataNL (pruneSelect ch maxd add s.fileInfoMap s.diskUsage).2.1
            (pruneSelect ch maxd add s.fileInfoMap s.diskUsage).1
            (pruneSelect ch maxd add s.fileInfoMap s.diskUsage).2.2 s) := by
        simp [pruneDataFilesNL, h1, h2]
      rw [hred]
      exact ⟨countKey_filter_zero _ _ _ hpm, countKey_filter_zero _ _ _ hfd⟩
    · have hred : pruneDataFilesNL maxd add ch s = (.insufficient, s) := by
        simp [pruneDataFilesNL, h1, h2]
      rw [hred]
      exact ⟨hpm, hfd⟩

/-- Claim C3 (amended): a store whose block hash is already present changes
nothing and returns the AlreadyPresent outcome, whose C++ return value is
false — the SAME boolean the error outcomes produce, not a distinct one;
after a successful store, any second store of the same hash is such a no-op
and exactly one position-map entry and one on-disk record exist for it. -/
theorem storeMerkleTree_idempotent (maxd pref : Nat) (aOk pOk : Bool) (bid : Nat)
    (bh : Int) (t n : Nat) (ch : Int) (maxd2 pref2 : Nat) (aOk2 pOk2 : Bool)
    (bh2 : Int) (t2 n2 : Nat) (ch2 : Int) (s : StoreState)
    (hfd : countKey s.fileData bid = 0)
    (hok : (storeMerkleTree maxd pref aOk pOk bid bh t n ch s).1 = .ok) :
    storeMerkleTree maxd2 pref2 aOk2 pOk2 bid bh2 t2 n2 ch2
        (storeMerkleTree maxd pref aOk pOk bid bh t n ch s).2 =
      (.alreadyPresent, (storeMerkleTree maxd pref aOk pOk bid bh t n ch s).2) ∧
    storeResultToBool .alreadyPresent = false ∧
    countKey (storeMerkleTree maxd pref aOk pOk bid bh t n ch s).2.diskPositionMap bid = 1 ∧
    countKey (storeMerkleTree maxd pref aOk pOk bid bh t n ch s).2.fileData bid = 1 := by
  cases hl : alookup s.diskPositionMap bid with
  | some v => simp [storeMerkleTree, hl] at hok
  | none =>
    have hpm0 : countKey s.diskPositionMap bid = 0 :=
      (countKey_eq_zero _ _).mpr ((alookup_eq_none _ _).mp hl)
    rcases hpr : pruneDataFilesNL maxd n ch s with ⟨r, s1⟩
    have hk := pruneDataFilesNL_countKey maxd n ch s bid hpm0 hfd
    rw [hpr] at hk
    cases r with
    | insufficient => simp [storeMerkleTree, hl, hpr] at hok
    | ok =>
      cases aOk with
      | false => simp [storeMerkleTree, hl, hpr] at hok
      | true =>
        cases pOk with
        | false => simp [storeMerkleTree, hl, hpr] at hok
        | true =>
          have hs' : storeMerkleTree maxd pref true true bid bh t n ch s =
              (.ok, addNewDataNL bid bh t
                (if 0 < s1.nextDiskPosition.fileOffset ∧
                    pref < s1.nextDiskPosition.fileOffset + n then
                  ⟨s1.nextDiskPosition.fileSuffix + 1, 0⟩
                else s1.nextDiskPosition) n s1) := by
            simp [storeMerkleTree, hl, hpr]
          rw [hs']
          refine ⟨?_, rfl, ?_, ?_⟩
          · simp [storeMerkleTree, addNewDataNL, alookup]
          · simp [addNewDataNL, countKey_cons, hk.1]
          · simp [addNewDataNL, countKey_cons, hk.2]

/-- Claim C3 counterexample: re-storing block hash 1 (already present in
sEx) changes nothing and yields AlreadyPresent, but the boolean that
CMerkleTreeStore::StoreMerkleTree actually returns for it (per the header:
"Returns false if Merkle Tree with given blockHash was already written or in
case of errors") is the same false that an I/O error yields — the outcome
is not distinct from the error outcomes at the interface. -/
theorem storeMerkleTree_alreadyPresent_cex :
    (storeMerkleTree 100 32 true true 1 6 50 10 9 sEx).1 = .alreadyPresent ∧
    (storeMerkleTree 100 32 false true 8 6 50 10 9 ⟨[], ⟨0, 0⟩, [], 0, []⟩).1 = .ioError ∧
    storeResultToBool (storeMerkleTree 100 32 true true 1 6 50 10 9 sEx).1 =
      storeResultToBool (storeMerkleTree 100 32 false true 8 6 50 10 9 ⟨[], ⟨0, 0⟩, [], 0, []⟩).1 ∧
    (storeMerkleTree 100 32 true true 1 6 50 10 9 sEx).2 = sEx := by
  refine ⟨?_, ?_, ?_, ?_⟩ <;> decide

/-- Claim C3 witness: storing block hash 5 twice into an empty store; the
second call is a no-op returning AlreadyPresent. -/
theorem storeMerkleTree_idempotent_witness :
    storeMerkleTree 100 32 true true 5 7 42 10 9
        (storeMerkleTree 100 32 true true 5 7 42 10 9 ⟨[], ⟨0, 0⟩, [], 0, []⟩).2 =
      (.alreadyPresent, (storeMerkleTree 100 32 true true 5 7 42 10 9 ⟨[], ⟨0, 0⟩, [], 0, []⟩).2) :=
  (storeMerkleTree_idempotent 100 32 true true 5 7 42 10 9 100 32 true true 7 42 10 9
    ⟨[], ⟨0, 0⟩, [], 0, []⟩ (by decide) (by decide)).1

/-- Claim C4 (amended): on NoSpace the state is exactly the pre-call state;
on IoError the store step's own mutations are rolled back, leaving the state
the prune of step 2 committed (which differs from the pre-call state when
that prune evicted files); the prune fast path and the insufficient outcome
leave the state untouched. -/
theorem storeMerkleTree_rollback (maxd pref : Nat) (aOk pOk : Bool) (bid : Nat)
    (bh : Int) (t n : Nat) (ch : Int) (s : StoreState) :
    ((storeMerkleTree maxd pref aOk pOk bid bh t n ch s).1 = .noSpace →
      (storeMerkleTree maxd pref aOk pOk bid bh t n ch s).2 = s) ∧
    ((storeMerkleTree maxd pref aOk pOk bid bh t n ch s).1 = .ioError →
      (storeMerkleTree maxd pref aOk pOk bid bh t n ch s).2 =
        (pruneDataFilesNL maxd n ch s).2) ∧
    (s.diskUsage + n ≤ maxd → pruneDataFilesNL maxd n ch s = (.ok, s)) ∧
    ((pruneDataFilesNL maxd n ch s).1 = .insufficient →
      (pruneDataFilesNL maxd n ch s).2 = s) := by
  refine ⟨?_, ?_, fun h => by simp [pruneDataFilesNL, h], ?_⟩
  · intro h
    cases hl : alookup s.diskPositionMap bid with
    | some v => simp [storeMerkleTree, hl] at h
    | none =>
      rcases hpr : pruneDataFilesNL maxd n ch s with ⟨r, s1⟩
      cases r with
      | insufficient => simp [storeMerkleTree, hl, hpr]
      | ok =>
        cases aOk with
        | false => simp [storeMerkleTree, hl, hpr] at h
        | true =>
          cases pOk with
          | false => simp [storeMerkleTree, hl, hpr] at h
          | true => simp [storeMerkleTree, hl, hpr] at h
  · intro h
    cases hl : alookup s.diskPositionMap bid with
    | some v => simp [storeMerkleTree, hl] at h
    | none =>
      rcases hpr : pruneDataFilesNL maxd n ch s with ⟨r, s1⟩
      cases r with
      | insufficient => simp [storeMerkleTree, hl, hpr] at h
      | ok =>
        cases aOk with
        | false => simp [storeMerkleTree, hl, hpr]
        | true =>
          cases pOk with
          | false => simp [storeMerkleTree, hl, hpr]
          | true => simp [storeMerkleTree, hl, hpr] at h
  · intro h
    by_cases h1 : s.diskUsage + n ≤ maxd
    · simp [pruneDataFilesNL, h1] at h
    · by_cases h2 : (pruneSelect ch maxd n s.fileInfoMap s.diskUsage).2.2 + n ≤ maxd
      · simp [pruneDataFilesNL, h1, h2] at h
      · simp [pruneDataFilesNL, h1, h2]

/-- Claim C4 counterexample: at state sEx with budget 10 and incoming size
5, the prune of step 2 evicts both files and commits; the subsequent append
fails, so the call returns IoError — but the state is NOT the pre-call
state: the evictions persist, falsifying the claim that IoError leaves the
state exactly as it was before the call. -/
theorem storeMerkleTree_atomicity_cex :
    (storeMerkleTree 10 32 false true 9 500 77 5 1000 sEx).1 = .ioError ∧
    (storeMerkleTree 10 32 false true 9 500 77 5 1000 sEx).2 ≠ sEx := by
  refine ⟨?_, ?_⟩ <;> decide

/-- Claim C4 witness: the rollback theorem applied at the counterexample
input: the IoError state is exactly the post-prune state. -/
theorem storeMerkleTree_rollback_witness :
    (storeMerkleTree 10 32 false true 9 500 77 5 1000 sEx).2 =
      (pruneDataFilesNL 10 5 1000 sEx).2 :=
  (storeMerkleTree_rollback 10 32 false true 9 500 77 5 1000 sEx).2.1 (by decide)

theorem alookup_aerase_ne {β : Type} (l : List (Nat × β)) (k x : Nat) (h : x ≠ k) :
    alookup (aerase l k) x = alookup l x := by
  induction l with
  | nil => simp [aerase]
  | cons p rest ih =>
    obtain ⟨a, b⟩ := p
    by_cases ha : a = k
    · subst ha
      simp [aerase, alookup, Ne.symm h]
    · by_cases hax : a = x
      · simp [aerase, ha, alookup, hax, h]
      · simp [aerase, ha, alookup, hax, ih]

theorem map_fst_aerase {β : Type} (l : List (Nat × β)) (k : Nat) :
    (aerase l k).map Prod.fst = (l.map Prod.fst).erase k := by
  induction l with
  | nil => simp [aerase]
  | cons p rest ih =>
    obtain ⟨a, b⟩ := p
    by_cases ha : a = k
    · subst ha
      simp [aerase, List.erase_cons_head]
    · simp [aerase, ha, List.erase_cons_tail, ih]

theorem alookup_aerase_self {β : Type} (l : List (Nat × β)) (k : Nat)
    (hnd : (l.map Prod.fst).Nodup) : alookup (aerase l k) k = none := by
  induction l with
  | nil => simp [aerase, alookup]
  | cons p rest ih =>
    obtain ⟨a, b⟩ := p
    simp only [List.map_cons, List.nodup_cons] at hnd
    by_cases ha : a = k
    · subst ha
      simp only [aerase, if_pos rfl]
      exact (alookup_eq_none rest a).mpr hnd.1
    · simp only [aerase, if_neg ha, alookup, if_neg ha]
      exact ih hnd.2

theorem sumSizes_aerase (l : List (Nat × CacheEntry)) (k : Nat) (e : CacheEntry)
    (h : alookup l k = some e) : sumSizes (aerase l k) + e.sizeBytes = sumSizes l := by
  induction l with
  | nil => simp [alookup] at h
  | cons p rest ih =>
    obtain ⟨a, b⟩ := p
    by_cases ha : a = k
    · rw [alookup, if_pos ha] at h
      obtain rfl : b = e := by injection h
      simp [aerase, ha, sumSizes]
      omega
    · rw [alookup, if_neg ha] at h
      have := ih h
      simp [aerase, ha, sumSizes]
      omega

/-- Full description of the eviction loop on a well-formed cache: it pops
some prefix of length k off the FIFO queue, removing exactly those map
entries (everything else untouched), keeps the byte counter equal to the
aggregate size, and stops early only once the new entry fits. -/
theorem evictLoop_spec (cm n : Nat) :
    ∀ (q : List Nat) (m : List (Nat × CacheEntry)) (b : Nat),
      q.Nodup → q.Perm (m.map Prod.fst) → b = sumSizes m →
      ∃ k, (evictLoop cm n q m b).1 = q.drop k ∧
        (evictLoop cm n q m b).1.Perm ((evictLoop cm n q m b).2.1.map Prod.fst) ∧
        (evictLoop cm n q m b).2.2 = sumSizes (evictLoop cm n q m b).2.1 ∧
        ((evictLoop cm n q m b).1 ≠ [] → (evictLoop cm n q m b).2.2 + n ≤ cm) ∧
        (∀ x ∈ q.take k, alookup (evictLoop cm n q m b).2.1 x = none) ∧
        (∀ x, x ∉ q.take k → alookup (evictLoop cm n q m b).2.1 x = alookup m x)
  | [], m, b, hnd, hperm, hsum =>
    ⟨0, by simp [evictLoop], by simpa [evictLoop] using hperm,
      by simpa [evictLoop] using hsum, by simp [evictLoop],
      by simp, fun x _ => by simp [evictLoop]⟩
  | oldest :: rest, m, b, hnd, hperm, hsum => by
    by_cases hstop : b + n ≤ cm
    · have hred : evictLoop cm n (oldest :: rest) m b = (oldest :: rest, m, b) := by
        simp [evictLoop, hstop]
      refine ⟨0, ?_, ?_, ?_, ?_, ?_, ?_⟩ <;> rw [hred]
      · simp
      · exact hperm
      · exact hsum
      · exact fun _ => hstop
      · intro x hx
        simp at hx
      · intro x _
        rfl
    · have holdkeys : oldest ∈ m.map Prod.fst := hperm.mem_iff.mp (by simp)
      have hsome : ∃ e, alookup m oldest = some e := by
        cases he : alookup m oldest with
        | none => exact (((alookup_eq_none m oldest).mp he) holdkeys).elim
        | some e => exact ⟨e, rfl⟩
      obtain ⟨e, he⟩ := hsome
      have hred : evictLoop cm n (oldest :: rest) m b =
          evictLoop cm n rest (aerase m oldest) (b - e.sizeBytes) := by
        simp [evictLoop, hstop, he]
      have hndrest : rest.Nodup := (List.nodup_cons.mp hnd).2
      have hnotin : oldest ∉ rest := (List.nodup_cons.mp hnd).1
      have hkeysnd : (m.map Prod.fst).Nodup := hperm.nodup hnd
      have hpermrest : rest.Perm ((aerase m oldest).map Prod.fst) := by
        rw [map_fst_aerase]
        have h1 := hperm.erase oldest
        simpa [List.erase_cons_head] using h1
      have hsumrest : b - e.sizeBytes = sumSizes (aerase m oldest) := by
        have := sumSizes_aerase m oldest e he
        omega
      obtain ⟨k, ih1, ih2, ih3, ih4, ih5, ih6⟩ :=
        evictLoop_spec cm n rest (aerase m oldest) (b - e.sizeBytes) hndrest hpermrest hsumrest
      refine ⟨k + 1, ?_, ?_, ?_, ?_, ?_, ?_⟩ <;> rw [hred]
      · simpa using ih1
      · exact ih2
      · exact ih3
      · exact ih4
      · intro x hx
        rw [List.take_succ_cons] at hx
        rcases List.mem_cons.mp hx with rfl | hx2
        · rw [ih6 x (fun hmem => hnotin ((List.take_sublist k rest).subset hmem))]
          exact alookup_aerase_self m x hkeysnd
        · exact ih5 x hx2
      · intro x hx
        rw [List.take_succ_cons] at hx
        have hx1 : x ≠ oldest := fun hh => hx (hh ▸ List.mem_cons_self _ _)
        have hx2 : x ∉ rest.take k := fun hh => hx (List.mem_cons_of_mem _ hh)
        rw [ih6 x hx2]
        exact alookup_aerase_ne m oldest x hx1

/-- Claim C5: starting from a well-formed cache satisfying the size
invariant, Insert returns a well-formed cache that again satisfies
cacheSizeBytes ≤ cacheMax — except that a single entry larger than cacheMax
is admitted as the sole resident (CacheOversized). -/
theorem cacheInsert_bound (cacheMax bid : Nat) (e : CacheEntry) (c : CacheState)
    (hwf : CacheWF c) (hinv : CacheInv cacheMax c) :
    CacheWF (cacheInsert cacheMax bid e c) ∧
    CacheInv cacheMax (cacheInsert cacheMax bid e c) := by
  obtain ⟨hnd, hperm, hsum⟩ := hwf
  by_cases hpre : (alookup c.merkleTreeMap bid).isSome
  · have hred : cacheInsert cacheMax bid e c = c := by
      simp [cacheInsert, hpre]
    rw [hred]
    exact ⟨⟨hnd, hperm, hsum⟩, hinv⟩
  · obtain ⟨k, h1, h2, h3, h4, h5, h6⟩ := evictLoop_spec cacheMax e.sizeBytes
      c.merkleTreeQueue c.merkleTreeMap c.cacheSizeBytes hnd hperm hsum
    have hbidq : bid ∉ c.merkleTreeQueue := by
      intro hmem
      have hkeys : bid ∈ c.merkleTreeMap.map Prod.fst := hperm.mem_iff.mp hmem
      cases ha : alookup c.merkleTreeMap bid with
      | none => exact ((alookup_eq_none _ _).mp ha) hkeys
      | some v => exact hpre (by simp [ha])
    have hred : cacheInsert cacheMax bid e c =
        { merkleTreeMap := (bid, e) ::
            (evictLoop cacheMax e.sizeBytes c.merkleTreeQueue c.merkleTreeMap c.cacheSizeBytes).2.1
          merkleTreeQueue :=
            (evictLoop cacheMax e.sizeBytes c.merkleTreeQueue c.merkleTreeMap c.cacheSizeBytes).1 ++ [bid]
          cacheSizeBytes :=
            (evictLoop cacheMax e.sizeBytes c.merkleTreeQueue c.merkleTreeMap c.cacheSizeBytes).2.2
              + e.sizeBytes } := by
      simp [cacheInsert, hpre]
    rw [hred]
    have hq1 : (evictLoop cacheMax e.sizeBytes c.merkleTreeQueue c.merkleTreeMap
        c.cacheSizeBytes).1.Nodup := by
      rw [h1]
      exact List.Nodup.sublist (List.drop_sublist k _) hnd
    have hbidq1 : bid ∉ (evictLoop cacheMax e.sizeBytes c.merkleTreeQueue c.merkleTreeMap
        c.cacheSizeBytes).1 := by
      rw [h1]
      exact fun hh => hbidq ((List.drop_sublist k _).subset hh)
    refine ⟨⟨?_, ?_, ?_⟩, ?_⟩
    · simp [List.nodup_append, hq1, List.disjoint_singleton]
      exact fun hh => (hbidq1 hh).elim
    · exact (List.perm_append_singleton _ _).trans (h2.cons bid)
    · simp [sumSizes]
      omega
    · by_cases hqe : (evictLoop cacheMax e.sizeBytes c.merkleTreeQueue c.merkleTreeMap
          c.cacheSizeBytes).1 = []
      · have hme : (evictLoop cacheMax e.sizeBytes c.merkleTreeQueue c.merkleTreeMap
            c.cacheSizeBytes).2.1 = [] := by
          have hx := h2
          rw [hqe] at hx
          exact List.map_eq_nil_iff.mp hx.symm.eq_nil
        have hb0 : (evictLoop cacheMax e.sizeBytes c.merkleTreeQueue c.merkleTreeMap
            c.cacheSizeBytes).2.2 = 0 := by
          rw [h3, hme]
          rfl
        by_cases hsize : e.sizeBytes ≤ cacheMax
        · exact Or.inl (by simp [CacheState.cacheSizeBytes, hb0]; omega)
        · refine Or.inr ⟨bid, e, ?_, ?_, ?_, ?_⟩
          · simp [hqe]
          · simp [hme]
          · simp [hb0]
          · omega
      · exact Or.inl (h4 hqe)

/-- Claim C5 witness: inserting a 4-byte entry into the one-entry cache cEx
under bound 10 keeps the cache well-formed and within the bound. -/
theorem cacheInsert_bound_witness :
    CacheWF (cacheInsert 10 1 ⟨5, 4⟩ cEx) ∧ CacheInv 10 (cacheInsert 10 1 ⟨5, 4⟩ cEx) :=
  cacheInsert_bound 10 1 ⟨5, 4⟩ cEx ⟨by decide, List.Perm.refl _, by decide⟩
    (Or.inl (by decide))

/-- Claim C6: the cache is strictly FIFO.  Inserting an already-present hash
is a no-op; otherwise the insert pops some prefix of length k off the FIFO
queue (the k oldest entries, which disappear from the map), leaves every
younger entry untouched and in order, and appends the new hash at the back.
Lookup is a pure read of the map (cacheLookup) and by construction changes
neither the map nor the queue. -/
theorem cacheInsert_fifo (cacheMax bid : Nat) (e : CacheEntry) (c : CacheState)
    (hwf : CacheWF c) :
    ((alookup c.merkleTreeMap bid).isSome = true → cacheInsert cacheMax bid e c = c) ∧
    (alookup c.merkleTreeMap bid = none →
      ∃ k, (cacheInsert cacheMax bid e c).merkleTreeQueue =
          c.merkleTreeQueue.drop k ++ [bid] ∧
        (∀ x ∈ c.merkleTreeQueue.take k,
          alookup (cacheInsert cacheMax bid e c).merkleTreeMap x = none) ∧
        (∀ x ∈ c.merkleTreeQueue.drop k,
          alookup (cacheInsert cacheMax bid e c).merkleTreeMap x =
            alookup c.merkleTreeMap x)) := by
  obtain ⟨hnd, hperm, hsum⟩ := hwf
  constructor
  · intro hpre
    simp [cacheInsert, hpre]
  · intro hnone
    have hpre : ¬ (alookup c.merkleTreeMap bid).isSome = true := by
      simp [hnone]
    obtain ⟨k, h1, h2, h3, h4, h5, h6⟩ := evictLoop_spec cacheMax e.sizeBytes
      c.merkleTreeQueue c.merkleTreeMap c.cacheSizeBytes hnd hperm hsum
    have hred : cacheInsert cacheMax bid e c =
        { merkleTreeMap := (bid, e) ::
            (evictLoop cacheMax e.sizeBytes c.merkleTreeQueue c.merkleTreeMap c.cacheSizeBytes).2.1
          merkleTreeQueue :=
            (evictLoop cacheMax e.sizeBytes c.merkleTreeQueue c.merkleTreeMap c.cacheSizeBytes).1 ++ [bid]
          cacheSizeBytes :=
            (evictLoop cacheMax e.sizeBytes c.merkleTreeQueue c.merkleTreeMap c.cacheSizeBytes).2.2
              + e.sizeBytes } := by
      simp [cacheInsert, hpre]
    have hbidkeys : bid ∉ c.merkleTreeMap.map Prod.fst := (alookup_eq_none _ _).mp hnone
    refine ⟨k, ?_, ?_, ?_⟩
    · rw [hred]
      simp only []
      rw [h1]
    · intro x hx
      have hxq : x ∈ c.merkleTreeQueue := (List.take_sublist k _).subset hx
      have hxbid : x ≠ bid := fun hh => hbidkeys (hperm.mem_iff.mp (hh ▸ hxq))
      rw [hred]
      show alookup ((bid, e) ::
        (evictLoop cacheMax e.sizeBytes c.merkleTreeQueue c.merkleTreeMap c.cacheSizeBytes).2.1) x = none
      rw [alookup, if_neg (Ne.symm hxbid)]
      exact h5 x hx
    · intro x hx
      have hxq : x ∈ c.merkleTreeQueue := (List.drop_sublist k _).subset hx
      have hxbid : x ≠ bid := fun hh => hbidkeys (hperm.mem_iff.mp (hh ▸ hxq))
      have hxtake : x ∉ c.merkleTreeQueue.take k := by
        have hnd2 : (c.merkleTreeQueue.take k ++ c.merkleTreeQueue.drop k).Nodup := by
          rwa [List.take_append_drop]
        exact fun hh => ((List.nodup_append.mp hnd2).2.2) hh hx
      rw [hred]
      show alookup ((bid, e) ::
        (evictLoop cacheMax e.sizeBytes c.merkleTreeQueue c.merkleTreeMap c.cacheSizeBytes).2.1) x =
        alookup c.merkleTreeMap x
      rw [alookup, if_neg (Ne.symm hxbid)]
      exact h6 x hxtake

/-- Claim C6 witness: inserting the already-present hash 3 into cEx is a
no-op. -/
theorem cacheInsert_fifo_witness :
    cacheInsert 10 3 ⟨1, 2⟩ cEx = cEx :=
  (cacheInsert_fifo 10 3 ⟨1, 2⟩ cEx ⟨by decide, List.Perm.refl _, by decide⟩).1 (by decide)

/-- Claim C7: the factory's GetMerkleTree returns none exactly when the
cache misses, the disk store misses, and the external block database cannot
supply the block's bytes; whenever the block bytes are available on the
full-miss path, the computed tree is returned regardless of the outcome of
the best-effort store (any combination of append/persist success). -/
theorem factoryGetMerkleTree_total (maxd pref cm : Nat) (aOk pOk : Bool)
    (blockDb : Nat → Option Nat) (calcTree serSize : Nat → Nat) (bid : Nat)
    (bh ch : Int) (c : CacheState) (s : StoreState) :
    ((factoryGetMerkleTree maxd pref cm aOk pOk blockDb calcTree serSize bid bh ch c s).1 = none ↔
      cacheLookup c bid = none ∧ storeGetMerkleTree s bid = none ∧ blockDb bid = none) ∧
    (∀ blk, blockDb bid = some blk → cacheLookup c bid = none →
      storeGetMerkleTree s bid = none →
      (factoryGetMerkleTree maxd pref cm aOk pOk blockDb calcTree serSize bid bh ch c s).1 =
        some (calcTree blk)) := by
  constructor
  · cases hc : cacheLookup c bid with
    | some e => simp [factoryGetMerkleTree, hc]
    | none =>
      cases hd : storeGetMerkleTree s bid with
      | some t => simp [factoryGetMerkleTree, hc, hd]
      | none =>
        cases hb : blockDb bid with
        | some blk => simp [factoryGetMerkleTree, hc, hd, hb]
        | none => simp [factoryGetMerkleTree, hc, hd, hb]
  · intro blk hb hc hd
    simp [factoryGetMerkleTree, hc, hd, hb]

/-- Claim C7 witness: on a full miss with the block available, the computed
tree is returned even though the store's append fails with an I/O error. -/
theorem factoryGetMerkleTree_total_witness :
    (factoryGetMerkleTree 100 32 10 false true (fun _ => some 3) (fun b => b + 1)
      (fun _ => 4) 9 5 9 ⟨[], [], 0⟩ ⟨[], ⟨0, 0⟩, [], 0, []⟩).1 = some 4 :=
  (factoryGetMerkleTree_total 100 32 10 false true (fun _ => some 3) (fun b => b + 1)
    (fun _ => 4) 9 5 9 ⟨[], [], 0⟩ ⟨[], ⟨0, 0⟩, [], 0, []⟩).2 3 rfl rfl rfl

theorem encLE_length : ∀ (w n : Nat), (encLE w n).length = w
  | 0, _ => rfl
  | w + 1, n => by simp [encLE, encLE_length w (n / 256)]

theorem decLE_encLE : ∀ (w n : Nat), n < 256 ^ w → decLE (encLE w n) = n
  | 0, n, h => by
    simp only [pow_zero, Nat.lt_one_iff] at h
    simp [encLE, decLE, h]
  | w + 1, n, h => by
    have hlt : n / 256 < 256 ^ w := by
      rw [Nat.div_lt_iff_lt_mul (by norm_num : 0 < 256)]
      calc n < 256 ^ (w + 1) := h
        _ = 256 ^ w * 256 := by rw [pow_succ]
    simp only [encLE, decLE, decLE_encLE w (n / 256) hlt]
    omega

theorem decBE_encBE (w n : Nat) (h : n < 256 ^ w) : decBE (encBE w n) = n := by
  simp [encBE, decBE, decLE_encLE w n h]

theorem encBE_length (w n : Nat) : (encBE w n).length = w := by
  simp [encBE, encLE_length]

theorem encI32_length (h : Int) : (encI32 h).length = 4 := by
  simp [encI32, encLE_length]

theorem decI32_encI32 (h : Int) (h1 : -2147483648 ≤ h) (h2 : h < 2147483648) :
    decI32 (encI32 h) = h := by
  have hmod : 0 ≤ h % 4294967296 := Int.emod_nonneg h (by norm_num)
  have hmodlt : h % 4294967296 < 4294967296 := Int.emod_lt_of_pos h (by norm_num)
  have hlt : (h % 4294967296).toNat < 256 ^ 4 := by
    have h4 : (256 : Nat) ^ 4 = 4294967296 := by norm_num
    omega
  simp only [decI32, encI32, decLE_encLE 4 _ hlt]
  by_cases hcase : (h % 4294967296).toNat < 2147483648
  · rw [if_pos hcase]
    omega
  · rw [if_neg hcase]
    omega

theorem parse_serializeFileEntry (p : Nat × MerkleTreeFileInfo)
    (hf : p.1 < 4294967296) (hs : p.2.fileSize < 18446744073709551616)
    (hg1 : -2147483648 ≤ p.2.greatestHeight) (hg2 : p.2.greatestHeight < 2147483648) :
    parseIndexEntry (serializeFileEntry p) = some (.fileItem p.1 p.2) := by
  obtain ⟨f, fi⟩ := p
  have hkey : (encBE 4 f).length = 4 := encBE_length 4 f
  have hval : (encLE 8 fi.fileSize ++ encI32 fi.greatestHeight).length = 12 := by
    simp [encLE_length, encI32_length]
  have htake : (encLE 8 fi.fileSize ++ encI32 fi.greatestHeight).take 8 =
      encLE 8 fi.fileSize := List.take_left' (encLE_length 8 fi.fileSize)
  have hdrop : (encLE 8 fi.fileSize ++ encI32 fi.greatestHeight).drop 8 =
      encI32 fi.greatestHeight := List.drop_left' (encLE_length 8 fi.fileSize)
  simp only [serializeFileEntry, parseIndexEntry, hkey, hval, and_self, if_true, htake, hdrop]
  rw [decBE_encBE 4 f (by norm_num at hf ⊢; omega),
    decLE_encLE 8 fi.fileSize (by norm_num at hs ⊢; omega),
    decI32_encI32 fi.greatestHeight hg1 hg2]

theorem parse_serializePosEntry (p : Nat × MerkleTreeDiskPosition)
    (hb : p.1 < 256 ^ 32) (hfs : p.2.fileSuffix < 4294967296)
    (hfo : p.2.fileOffset < 18446744073709551616) :
    parseIndexEntry (serializePosEntry p) = some (.posItem p.1 p.2) := by
  obtain ⟨b, pos⟩ := p
  have hkey : (encLE 32 b).length = 32 := encLE_length 32 b
  have hval : (encLE 4 pos.fileSuffix ++ encLE 8 pos.fileOffset).length = 12 := by
    simp [encLE_length]
  have htake : (encLE 4 pos.fileSuffix ++ encLE 8 pos.fileOffset).take 4 =
      encLE 4 pos.fileSuffix := List.take_left' (encLE_length 4 pos.fileSuffix)
  have hdrop : (encLE 4 pos.fileSuffix ++ encLE 8 pos.fileOffset).drop 4 =
      encLE 8 pos.fileOffset := List.drop_left' (encLE_length 4 pos.fileSuffix)
  simp only [serializePosEntry, parseIndexEntry, hkey, hval, and_self, if_true, htake, hdrop]
  rw [decLE_encLE 32 b hb,
    decLE_encLE 4 pos.fileSuffix (by norm_num at hfs ⊢; omega),
    decLE_encLE 8 pos.fileOffset (by norm_num at hfo ⊢; omega)]

theorem parse_serializeNpEntry (np : MerkleTreeDiskPosition)
    (hfs : np.fileSuffix < 4294967296) (hfo : np.fileOffset < 18446744073709551616) :
    parseIndexEntry (serializeNpEntry np) = some (.npItem np) := by
  have hval : (encLE 4 np.fileSuffix ++ encLE 8 np.fileOffset).length = 12 := by
    simp [encLE_length]
  have htake : (encLE 4 np.fileSuffix ++ encLE 8 np.fileOffset).take 4 =
      encLE 4 np.fileSuffix := List.take_left' (encLE_length 4 np.fileSuffix)
  have hdrop : (encLE 4 np.fileSuffix ++ encLE 8 np.fileOffset).drop 4 =
      encLE 8 np.fileOffset := List.drop_left' (encLE_length 4 np.fileSuffix)
  simp only [serializeNpEntry, parseIndexEntry, hval, List.length_nil, and_self, if_true,
    htake, hdrop]
  rw [decLE_encLE 4 np.fileSuffix (by norm_num at hfs ⊢; omega),
    decLE_encLE 8 np.fileOffset (by norm_num at hfo ⊢; omega)]

theorem parseAll_map {α : Type} (g : α → List Nat × List Nat) (h : α → IndexItem) :
    ∀ (l : List α), (∀ x ∈ l, parseIndexEntry (g x) = some (h x)) →
      parseAll (l.map g) = some (l.map h)
  | [], _ => rfl
  | x :: rest, hpt => by
    have hx := hpt x (by simp)
    have hrest := parseAll_map g h rest (fun y hy => hpt y (by simp [hy]))
    simp [parseAll, hx, hrest]

theorem parseAll_append (a b : List (List Nat × List Nat)) (xs ys : List IndexItem)
    (ha : parseAll a = some xs) (hb : parseAll b = some ys) :
    parseAll (a ++ b) = some (xs ++ ys) := by
  induction a generalizing xs with
  | nil =>
    simp only [parseAll] at ha
    obtain rfl : ([] : List IndexItem) = xs := by injection ha
    simpa using hb
  | cons e rest ih =>
    simp only [parseAll] at ha
    cases hpe : parseIndexEntry e with
    | none => rw [hpe] at ha; exact absurd ha (by simp)
    | some i =>
      rw [hpe] at ha
      cases hpr : parseAll rest with
      | none => rw [hpr] at ha; exact absurd ha (by simp)
      | some is =>
        rw [hpr] at ha
        obtain rfl : i :: is = xs := by injection ha
        simp only [List.cons_append, parseAll, hpe, List.append_eq, ih is hpr]

theorem buildIndexState_append (xs ys : List IndexItem)
    (acc : List (Nat × MerkleTreeDiskPosition) × List (Nat × MerkleTreeFileInfo) ×
      MerkleTreeDiskPosition) :
    buildIndexState (xs ++ ys) acc = buildIndexState ys (buildIndexState xs acc) := by
  induction xs generalizing acc with
  | nil => rfl
  | cons i rest ih => cases i <;> simp [buildIndexState, ih]

theorem buildIndexState_files (l : List (Nat × MerkleTreeFileInfo)) :
    ∀ (acc : List (Nat × MerkleTreeDiskPosition) × List (Nat × MerkleTreeFileInfo) ×
      MerkleTreeDiskPosition),
      buildIndexState (l.map (fun p => IndexItem.fileItem p.1 p.2)) acc =
        (acc.1, acc.2.1 ++ l, acc.2.2) := by
  induction l with
  | nil => intro acc; simp [buildIndexState]
  | cons p rest ih =>
    intro acc
    simp [buildIndexState, ih]

theorem buildIndexState_pos (l : List (Nat × MerkleTreeDiskPosition)) :
    ∀ (acc : List (Nat × MerkleTreeDiskPosition) × List (Nat × MerkleTreeFileInfo) ×
      MerkleTreeDiskPosition),
      buildIndexState (l.map (fun p => IndexItem.posItem p.1 p.2)) acc =
        (acc.1 ++ l, acc.2.1, acc.2.2) := by
  induction l with
  | nil => intro acc; simp [buildIndexState]
  | cons p rest ih =>
    intro acc
    simp [buildIndexState, ih]

/-- Claim C8: the persisted index round-trips.  Serializing the in-memory
state (PM, FIM, NP) into the key-value entries of spec section 6, then
loading via loadMerkleTreeIndexDB, reconstructs PM, FIM, NP and the
recomputed disk usage exactly equal to the committed in-memory state
(assuming the state's values fit their on-disk widths and satisfy the
load-time validation, as every committed state does). -/
theorem loadMerkleTreeIndexDB_roundTrip (s : StoreState)
    (hpm : ∀ p ∈ s.diskPositionMap, p.1 < 256 ^ 32 ∧ p.2.fileSuffix < 4294967296 ∧
      p.2.fileOffset < 18446744073709551616)
    (hfim : ∀ p ∈ s.fileInfoMap, p.1 < 4294967296 ∧ p.2.fileSize < 18446744073709551616 ∧
      -2147483648 ≤ p.2.greatestHeight ∧ p.2.greatestHeight < 2147483648)
    (hnp1 : s.nextDiskPosition.fileSuffix < 4294967296)
    (hnp2 : s.nextDiskPosition.fileOffset < 18446744073709551616)
    (hval1 : ∀ p ∈ s.diskPositionMap, ∃ q ∈ s.fileInfoMap, q.1 = p.2.fileSuffix)
    (hval2 : (∃ q ∈ s.fileInfoMap, q.1 = s.nextDiskPosition.fileSuffix) ∨
      s.nextDiskPosition.fileSuffix = maxSuffixPlusOne s.fileInfoMap)
    (hdu : s.diskUsage = sumFileSizes s.fileInfoMap) :
    loadMerkleTreeIndexDB (serializeIndex s) =
      some (s.diskPositionMap, s.fileInfoMap, s.nextDiskPosition, s.diskUsage) := by
  have hfiles : parseAll (s.fileInfoMap.map serializeFileEntry) =
      some (s.fileInfoMap.map (fun p => IndexItem.fileItem p.1 p.2)) :=
    parseAll_map _ _ _ (fun p hp => parse_serializeFileEntry p (hfim p hp).1
      (hfim p hp).2.1 (hfim p hp).2.2.1 (hfim p hp).2.2.2)
  have hposl : parseAll (s.diskPositionMap.map serializePosEntry) =
      some (s.diskPositionMap.map (fun p => IndexItem.posItem p.1 p.2)) :=
    parseAll_map _ _ _ (fun p hp => parse_serializePosEntry p (hpm p hp).1
      (hpm p hp).2.1 (hpm p hp).2.2)
  have hnpl : parseAll [serializeNpEntry s.nextDiskPosition] =
      some [IndexItem.npItem s.nextDiskPosition] := by
    simp [parseAll, parse_serializeNpEntry s.nextDiskPosition hnp1 hnp2]
  have hall : parseAll (serializeIndex s) =
      some (s.fileInfoMap.map (fun p => IndexItem.fileItem p.1 p.2) ++
        ([IndexItem.npItem s.nextDiskPosition] ++
          s.diskPositionMap.map (fun p => IndexItem.posItem p.1 p.2))) := by
    unfold serializeIndex
    rw [List.append_assoc]
    exact parseAll_append _ _ _ _ hfiles (parseAll_append _ _ _ _ hnpl hposl)
  have hbuild : buildIndexState
      (s.fileInfoMap.map (fun p => IndexItem.fileItem p.1 p.2) ++
        ([IndexItem.npItem s.nextDiskPosition] ++
          s.diskPositionMap.map (fun p => IndexItem.posItem p.1 p.2)))
      ([], [], ⟨0, 0⟩) = (s.diskPositionMap, s.fileInfoMap, s.nextDiskPosition) := by
    rw [buildIndexState_append, buildIndexState_append, buildIndexState_files]
    simp [buildIndexState, buildIndexState_pos]
  simp only [loadMerkleTreeIndexDB, hall, hbuild]
  rw [if_pos ⟨hval1, hval2⟩, hdu]

/-- Claim C8 witness: the round trip at the concrete two-tree state sIdx. -/
theorem loadMerkleTreeIndexDB_roundTrip_witness :
    loadMerkleTreeIndexDB (serializeIndex sIdx) =
      some (sIdx.diskPositionMap, sIdx.fileInfoMap, sIdx.nextDiskPosition, sIdx.diskUsage) :=
  loadMerkleTreeIndexDB_roundTrip sIdx (by decide) (by decide) (by decide) (by decide)
    (by decide) (by decide) (by decide)

end MerkleStore

namespace BitcoinConfig

/-- Claim C9 (amended): SetMaxBlockSize returns true and stores maxBlockSize
exactly when LEGACY_MAX_BLOCK_SIZE < maxBlockSize and the uint64 sum
(maxBlockSize + BLOCKFILE_BLOCK_HEADER_SIZE) mod 2^64 is strictly below
MAX_BLOCKFILE_SIZE; otherwise — including the equality case of the
fencepost check — it returns false and leaves the config unchanged. -/
theorem setMaxBlockSize_spec (legacy maxbf header mbs : Nat) (cfg : GlobalConfig) :
    ((setMaxBlockSize legacy maxbf header mbs cfg).1 = true ↔
      legacy < mbs ∧ (mbs + header) % U64MOD < maxbf) ∧
    ((setMaxBlockSize legacy maxbf header mbs cfg).1 = true →
      (setMaxBlockSize legacy maxbf header mbs cfg).2 =
        { cfg with nMaxBlockSize := mbs }) ∧
    ((setMaxBlockSize legacy maxbf header mbs cfg).1 = false →
      (setMaxBlockSize legacy maxbf header mbs cfg).2 = cfg) := by
  unfold setMaxBlockSize
  by_cases h1 : mbs ≤ legacy
  · rw [if_pos h1]
    refine ⟨?_, ?_, ?_⟩
    · simp
      omega
    · intro h
      simp at h
    · intro _
      rfl
  · rw [if_neg h1]
    by_cases h2 : maxbf ≤ (mbs + header) % U64MOD
    · rw [if_pos h2]
      refine ⟨?_, ?_, ?_⟩
      · simp
        omega
      · intro h
        simp at h
      · intro _
        rfl
    · rw [if_neg h2]
      refine ⟨?_, fun _ => rfl, ?_⟩
      · simp
        omega
      · intro h
        simp at h

/-- Claim C9 witness: a legal 2 MB block size is accepted and stored (with
the real constants LEGACY_MAX_BLOCK_SIZE = 1000000,
MAX_BLOCKFILE_SIZE = 0x8000000 and BLOCKFILE_BLOCK_HEADER_SIZE = 8). -/
theorem setMaxBlockSize_spec_witness :
    (setMaxBlockSize 1000000 134217728 8 2000000 ⟨0, 0⟩).2 =
      { nMaxBlockSize := 2000000, nBlockPriorityPercentage := 0 } :=
  (setMaxBlockSize_spec 1000000 134217728 8 2000000 ⟨0, 0⟩).2.1 (by decide)

/-- Claim C9 counterexample: the fencepost check is computed in uint64, so
with the real constants (LEGACY_MAX_BLOCK_SIZE = 1000000,
MAX_BLOCKFILE_SIZE = 134217728, BLOCKFILE_BLOCK_HEADER_SIZE = 8) the input
maxBlockSize = 2^64 − 1 makes the sum wrap to 7 and the call SUCCEEDS,
although the claim's mathematical condition
maxBlockSize + headerSize < MAX_BLOCKFILE_SIZE is false there. -/
theorem setMaxBlockSize_overflow_cex :
    (setMaxBlockSize 1000000 134217728 8 18446744073709551615 ⟨0, 0⟩).1 = true ∧
    ¬(18446744073709551615 + 8 < 134217728) := by
  constructor
  · decide
  · decide

/-- Claim C10: SetBlockPriorityPercentage accepts exactly the integers in
[0, 100]: in range it stores the value and returns true, out of range it
returns false and leaves the config unchanged. -/
theorem setBlockPriorityPercentage_range (v : Int) (cfg : GlobalConfig) :
    setBlockPriorityPercentage v cfg =
      if 0 ≤ v ∧ v ≤ 100 then
        (true, { cfg with nBlockPriorityPercentage := v.toNat })
      else (false, cfg) := by
  unfold setBlockPriorityPercentage
  by_cases h1 : v < 0 ∨ 100 < v
  · rw [if_pos h1, if_neg (by omega)]
  · rw [if_neg h1, if_pos (by omega)]
    have hmod : (v % 256).toNat = v.toNat := by omega
    rw [hmod]

end BitcoinConfig

